import Mathlib

/-!
Verification of the reference-extraction pipeline of the
AI-Driven Academic Articles References Exporter.

The Python source is shallowly embedded over `List Char`:

* document/entry texts are `List Char` (Python `str`);
* Python `re` probes are embedded as dedicated search functions, each one
  specialised to the literal pattern appearing in the source and documented
  with that pattern;
* Python floats are modelled exactly: the confidence score (a sum of the
  literals 0.05/0.10/0.15/0.20/0.25 clamped at 1.0) is kept as a `Nat`
  in hundredths (5/10/15/20/25, clamped at 100), and title similarity
  (an average of two ratios of naturals) is kept as an exact unreduced
  fraction `Nat × Nat`; comparisons against the literal thresholds 0.85
  and 0.9 are done by cross-multiplication, which is exact;
* word characters are modelled as ASCII alphanumerics plus underscore
  (the `\w`/`\b` classes of `re` restricted to ASCII).
-/

/-- A character of Python's `\s` class (ASCII whitespace incl. \x0b, \x0c). -/
def pyWsChar (c : Char) : Bool :=
  c = ' ' || c = '\t' || c = '\n' || c = '\r' || c = Char.ofNat 11 || c = Char.ofNat 12

/-- A character of the `\w` class of `re` (ASCII part): letters, digits, underscore. -/
def wordChar (c : Char) : Bool := c.isAlphanum || c = '_'

/-- Character of the text at index `i`; the NUL character (neither a word
character nor whitespace) stands for positions outside the text. -/
def charAt (t : List Char) (i : Nat) : Char := t.getD i (Char.ofNat 0)

/-- Case-insensitive character comparison, as under `re.IGNORECASE` (ASCII). -/
def lowerEq (a b : Char) : Bool := a.toLower == b.toLower

/-- The literal `kw` matches case-insensitively at index `i` of `t`. -/
def matchCIAt (t kw : List Char) (i : Nat) : Bool :=
  decide (i + kw.length ≤ t.length) &&
    (List.range kw.length).all (fun k => lowerEq (charAt t (i + k)) (charAt kw k))

/-- The pattern `\bkw\b` (with `re.IGNORECASE`) matches at index `i` of `t`:
the literal matches and both ends fall on word boundaries. -/
def wholeWordCIAt (t kw : List Char) (i : Nat) : Bool :=
  matchCIAt t kw i &&
    (i == 0 || !wordChar (charAt t (i - 1))) &&
    (i + kw.length == t.length || !wordChar (charAt t (i + kw.length)))

/-- First index `i`, scanning `n` positions upward from `start`, where `f`
produces a value; models the left-to-right scan of `re.search`. -/
def searchFrom {α : Type} (f : Nat → Option α) : Nat → Nat → Option α
  | _, 0 => none
  | i, n + 1 =>
    match f i with
    | some v => some v
    | none => searchFrom f (i + 1) n

/-- Position of the first match of `re.search(r'\bkw\b', t, re.IGNORECASE)`. -/
def findKwCI (t kw : List Char) : Option Nat :=
  searchFrom (fun i => if wholeWordCIAt t kw i then some i else none) 0 (t.length + 1)

/-- The `for pattern in patterns: m = re.search(...); if m: break` loop of
`detect_references_section`: the first keyword of the list, in list order,
that matches anywhere wins; returns its match position and length. -/
def searchKwList (t : List Char) : List (List Char) → Option (Nat × Nat)
  | [] => none
  | kw :: rest =>
    match findKwCI t kw with
    | some i => some (i, kw.length)
    | none => searchKwList t rest

/-- The start patterns of `detect_references_section`, in source order. -/
def startKeywords : List (List Char) :=
  ["REFERENCES".toList, "REFERENCE".toList, "BIBLIOGRAPHY".toList, "WORKS CITED".toList]

/-- The end patterns of `detect_references_section`, in source order. -/
def endKeywords : List (List Char) :=
  ["APPENDIX".toList, "ACKNOWLEDGMENT".toList, "ACKNOWLEDGEMENT".toList]

/-- Start offset of the references section: the match end (`match.end()`)
of the first start pattern, in priority order, that matches anywhere. -/
def detectStart (t : List Char) : Option Nat :=
  (searchKwList t startKeywords).map (fun p => p.1 + p.2)

/-- `PDFProcessor.detect_references_section`: returns `(start, end)` character
offsets, or `(-1, -1)` when no start keyword matches.  The end offset is
`start + m.start()` for the first end pattern, in source list order, that
matches in `text[start:]`, and the document length otherwise. -/
def detectReferencesSection (t : List Char) : Int × Int :=
  match detectStart t with
  | none => (-1, -1)
  | some s =>
    match searchKwList (t.drop s) endKeywords with
    | some p => ((s : Int), ((s + p.1 : Nat) : Int))
    | none => ((s : Int), (t.length : Int))

/-- The spec's end-detection policy, modelled from the spec's words for
comparison: the earliest match position among the three end keywords,
independent of their listed order. -/
def earliestEndKwPos (rem : List Char) : Option Nat :=
  searchFrom
    (fun i =>
      if endKeywords.any (fun kw => wholeWordCIAt rem kw i) then some i else none)
    0 (rem.length + 1)

/-- Length of the run of decimal digits of `t` starting at index `i`. -/
def digitRunLen (t : List Char) (i : Nat) : Nat :=
  ((t.drop i).takeWhile Char.isDigit).length

/-- Length of the run of `\s` characters of `t` starting at index `i`. -/
def wsRunLen (t : List Char) (i : Nat) : Nat :=
  ((t.drop i).takeWhile pyWsChar).length

/-- Length of the run of `[a-z]` characters of `t` starting at index `i`. -/
def lowerRunLen (t : List Char) (i : Nat) : Nat :=
  ((t.drop i).takeWhile Char.isLower).length

/-- The Python text slice `t[a:b]`. -/
def pySlice (t : List Char) (a b : Nat) : List Char := (t.drop a).take (b - a)

/-- Python `str.strip()` on the left: drop the leading `\s` run. -/
def stripLeftWs (l : List Char) : List Char := l.dropWhile pyWsChar

/-- Python `str.strip()` on the right: drop the trailing `\s` run. -/
def stripRightWs (l : List Char) : List Char := (l.reverse.dropWhile pyWsChar).reverse

/-- Python `str.strip()`: drop whitespace on both ends. -/
def pyStripWs (l : List Char) : List Char := stripRightWs (stripLeftWs l)

/-- Length of a match of `\[\d+\]` at index `i` of `t` (the bracket-number
token of the segmenter), if any. -/
def bracketTokenLen (t : List Char) (i : Nat) : Option Nat :=
  if charAt t i = '[' then
    let d := digitRunLen t (i + 1)
    if 1 ≤ d ∧ charAt t (i + 1 + d) = ']' then some (d + 2) else none
  else none

/-- All match positions of `\[\d+\]` in `t` (such matches never overlap,
so the ascending position list is exactly the left-to-right scan). -/
def bracketStarts (t : List Char) : List Nat :=
  (List.range t.length).filter (fun i => (bracketTokenLen t i).isSome)

/-- Token length at a bracket position (0 when out of place; unused then). -/
def bracketTokLenD (t : List Char) (p : Nat) : Nat := (bracketTokenLen t p).getD 0

/-- Captures of `re.findall(r'\[\d+\]\s*(.*?)(?=\[\d+\]|\Z)', text, re.DOTALL)`:
for each bracket token, the text from the end of the token, less the greedy
`\s*` run, lazily up to the next bracket token or the end of the text. -/
def numberedCapsAux (t : List Char) : List Nat → List (List Char)
  | [] => []
  | [p] => [stripLeftWs (pySlice t (p + bracketTokLenD t p) t.length)]
  | p :: q :: rest =>
    stripLeftWs (pySlice t (p + bracketTokLenD t p) q) :: numberedCapsAux t (q :: rest)

/-- The bracket-numbered strategy's raw capture list (strategy 1). -/
def numberedCaptures (t : List Char) : List (List Char) :=
  numberedCapsAux t (bracketStarts t)

/-- Length of a match of `\n\s*\d+\.\s+` at index `i` of `t` (the dot-numbered
split delimiter, strategy 2), if any. -/
def dotNumMatchLen (t : List Char) (i : Nat) : Option Nat :=
  if charAt t i = '\n' then
    let w := wsRunLen t (i + 1)
    let d := digitRunLen t (i + 1 + w)
    if 1 ≤ d ∧ charAt t (i + 1 + w + d) = '.' then
      let w2 := wsRunLen t (i + 2 + w + d)
      if 1 ≤ w2 then some (2 + w + d + w2) else none
    else none
  else none

/-- Length of a match of `\n\s*(?=[A-Z][a-z]+,\s+[A-Z])` at index `i` of `t`
(the author-year split delimiter, strategy 3), if any; the lookahead is
checked but not consumed. -/
def ayMatchLen (t : List Char) (i : Nat) : Option Nat :=
  if charAt t i = '\n' then
    let w := wsRunLen t (i + 1)
    let j := i + 1 + w
    if (charAt t j).isUpper then
      let lr := lowerRunLen t (j + 1)
      if 1 ≤ lr ∧ charAt t (j + 1 + lr) = ',' then
        let w2 := wsRunLen t (j + 2 + lr)
        if 1 ≤ w2 ∧ (charAt t (j + 2 + lr + w2)).isUpper then some (1 + w) else none
      else none
    else none
  else none

/-- `re.split` over `t` with delimiter matcher `m`: scan left to right, cut a
piece at every match, skip the matched span.  The fuel argument bounds the
scan (a number of steps larger than the text length never runs out). -/
def splitScan (t : List Char) (m : Nat → Option Nat) : Nat → Nat → List Char → List (List Char)
  | 0, i, acc => [acc.reverse ++ t.drop i]
  | fuel + 1, i, acc =>
    if t.length ≤ i then [acc.reverse]
    else
      match m i with
      | some (L + 1) => acc.reverse :: splitScan t m fuel (i + L + 1) []
      | _ => splitScan t m fuel (i + 1) (charAt t i :: acc)

/-- `re.split(r'\n\s*\d+\.\s+', text)` (strategy 2's split). -/
def splitDotNumbered (t : List Char) : List (List Char) :=
  splitScan t (dotNumMatchLen t) (t.length + 1) 0 []

/-- `re.split(r'\n\s*(?=[A-Z][a-z]+,\s+[A-Z])', text)` (strategy 3's split). -/
def splitAuthorYear (t : List Char) : List (List Char) :=
  splitScan t (ayMatchLen t) (t.length + 1) 0 []

/-- Python `text.split('\n')` (and `str.split(c)` generally): split at every
occurrence of `c`, keeping empty pieces. -/
def splitOnChar (c : Char) : List Char → List (List Char)
  | [] => [[]]
  | x :: xs =>
    if x = c then [] :: splitOnChar c xs
    else
      match splitOnChar c xs with
      | [] => [[x]]
      | h :: t2 => (x :: h) :: t2

/-- The line matches `^\[\d+\]` (fallback strategy's first heuristic). -/
def startsBracketNum (l : List Char) : Bool := (bracketTokenLen l 0).isSome

/-- The line matches `^\d+\.` (fallback strategy's second heuristic). -/
def startsDotNum (l : List Char) : Bool :=
  let d := digitRunLen l 0
  1 ≤ d ∧ charAt l d = '.'

/-- The line matches `^[A-Z][a-z]+,` (fallback strategy's third heuristic). -/
def startsCapComma (l : List Char) : Bool :=
  (charAt l 0).isUpper &&
    (let lr := lowerRunLen l 1
     decide (1 ≤ lr) && (charAt l (1 + lr) = ','))

/-- Python `' '.join(current_ref)`. -/
def joinSpace (ls : List (List Char)) : List Char := List.intercalate [' '] ls

/-- The line-by-line loop of the fallback strategy: a stripped non-blank line
starts a new reference when it looks bracket-numbered, dot-numbered, or
(capitalized-word-comma and an entry is already open); otherwise it is
appended to the open entry. -/
def fallbackLoop : List (List Char) → List (List Char) → List (List Char) → List (List Char)
  | [], refs, current => if current ≠ [] then refs ++ [joinSpace current] else refs
  | l :: ls, refs, current =>
    let line := pyStripWs l
    if line = [] then fallbackLoop ls refs current
    else if startsBracketNum line || startsDotNum line ||
        (startsCapComma line && !current.isEmpty) then
      fallbackLoop ls (if current ≠ [] then refs ++ [joinSpace current] else refs) [line]
    else fallbackLoop ls refs (current ++ [line])

/-- The fallback line-grouping strategy (strategy 4) of `_split_references`. -/
def fallbackSplit (t : List Char) : List (List Char) :=
  fallbackLoop (splitOnChar '\n' t) [] []

/-- `ReferenceParser._split_references`: the cascade of the four strategies.
Strategy 1 is used when `re.findall` returns a non-empty (raw) list;
strategies 2 and 3 require more than 5 raw pieces; strategy 4 is the
fallback.  Each accepted strategy's pieces are stripped and empty pieces
are discarded. -/
def splitReferences (t : List Char) : List (List Char) :=
  let numbered := numberedCaptures t
  if numbered ≠ [] then (numbered.map pyStripWs).filter (fun r => r ≠ [])
  else
    let nd := splitDotNumbered t
    if 5 < nd.length then (nd.map pyStripWs).filter (fun r => r ≠ [])
    else
      let ay := splitAuthorYear t
      if 5 < ay.length then (ay.map pyStripWs).filter (fun r => r ≠ [])
      else fallbackSplit t

/-- Python `str.strip(cs)` on the left. -/
def stripCharsLeft (cs l : List Char) : List Char := l.dropWhile (fun c => cs.contains c)

/-- Python `str.strip(cs)` on the right. -/
def stripCharsRight (cs l : List Char) : List Char :=
  (l.reverse.dropWhile (fun c => cs.contains c)).reverse

/-- Python `str.strip(cs)`: drop characters of `cs` on both ends. -/
def pyStripChars (cs l : List Char) : List Char := stripCharsRight cs (stripCharsLeft cs l)

/-- A character of the class `[.,;:]` (the `_clean_field` trailing set). -/
def punctTailChar (c : Char) : Bool := c = '.' || c = ',' || c = ';' || c = ':'

/-- `re.sub(r'[.,;:]+$', '', l)`: drop the trailing punctuation run. -/
def dropPunctTail (l : List Char) : List Char := (l.reverse.dropWhile punctTailChar).reverse

/-- `re.sub(r'\s+', ' ', l)`: collapse each whitespace run to one space. -/
def collapseWsAux : Bool → List Char → List Char
  | _, [] => []
  | prevWs, c :: rest =>
    if pyWsChar c then
      if prevWs then collapseWsAux true rest else ' ' :: collapseWsAux true rest
    else c :: collapseWsAux false rest

/-- See `collapseWsAux`. -/
def collapseWs (l : List Char) : List Char := collapseWsAux false l

/-- `ReferenceParser._clean_field`: strip trailing `[.,;:]`, collapse
whitespace, strip outer whitespace. -/
def cleanField (l : List Char) : List Char := pyStripWs (collapseWs (dropPunctTail l))

/-- The parser's quote pairs, in source order: ASCII double, Unicode curly
double, ASCII single, Unicode curly single. -/
def quotePairs : List (Char × Char) :=
  [('"', '"'), (Char.ofNat 8220, Char.ofNat 8221),
   ('\'', '\''), (Char.ofNat 8216, Char.ofNat 8217)]

/-- `re.search(f'{o}([^{c}]+){c}', t)` for one quote pair: scanning left to
right, the first opening quote followed by a non-empty run of non-closing
characters and then a closing quote; returns the run. -/
def findQuotedPair (o c : Char) : List Char → Option (List Char)
  | [] => none
  | x :: xs =>
    if x = o then
      let content := xs.takeWhile (fun ch => ch ≠ c)
      if content ≠ [] ∧ content.length < xs.length then some content
      else findQuotedPair o c xs
    else findQuotedPair o c xs

/-- The quote-pair loop of `_extract_quoted_text`: pairs are tried in list
order and the first pair that matches anywhere wins; the capture is cleaned. -/
def extractQuotedAux (t : List Char) : List (Char × Char) → List Char
  | [] => []
  | (o, c) :: rest =>
    match findQuotedPair o c t with
    | some content => cleanField content
    | none => extractQuotedAux t rest

/-- `ReferenceParser._extract_quoted_text`. -/
def extractQuotedText (t : List Char) : List Char := extractQuotedAux t quotePairs

/-- The pattern `\b(19|20)\d{2}\b` matches at index `i` of `t`. -/
def yearTokAt (t : List Char) (i : Nat) : Bool :=
  ((charAt t i = '1' && charAt t (i + 1) = '9') ||
    (charAt t i = '2' && charAt t (i + 1) = '0')) &&
  (charAt t (i + 2)).isDigit && (charAt t (i + 3)).isDigit &&
  (i == 0 || !wordChar (charAt t (i - 1))) && !wordChar (charAt t (i + 4))

/-- The year probe of `_parse_single_reference`:
`re.search(r'\b(19|20)\d{2}\b', text)`, returning `group(0)`. -/
def findYear (t : List Char) : Option (List Char) :=
  (searchFrom (fun i => if yearTokAt t i then some i else none) 0 (t.length + 1)).map
    (fun i => pySlice t i (i + 4))

/-- Length of the run of non-`\s` characters of `t` starting at index `i`. -/
def nonWsRunLen (t : List Char) (i : Nat) : Nat :=
  ((t.drop i).takeWhile (fun c => !pyWsChar c)).length

/-- `.rstrip('.,;')` as applied to the DOI and URL captures. -/
def rstripDotCommaSemi (l : List Char) : List Char :=
  (l.reverse.dropWhile (fun c => c = '.' || c = ',' || c = ';')).reverse

/-- A match of the DOI core `10\.\d{4,}/[^\s]+` at index `i` of `t` (the
optional `doi:` label and `\s*` prefix never change the capture). -/
def doiCoreAt (t : List Char) (i : Nat) : Option (List Char) :=
  if charAt t i = '1' ∧ charAt t (i + 1) = '0' ∧ charAt t (i + 2) = '.' then
    let d := digitRunLen t (i + 3)
    if 4 ≤ d ∧ charAt t (i + 3 + d) = '/' then
      let r := nonWsRunLen t (i + 4 + d)
      if 1 ≤ r then some (pySlice t i (i + 4 + d + r)) else none
    else none
  else none

/-- The DOI probe of `_parse_single_reference`: first match of the capture
of `(?:doi:|DOI:)?\s*(10\.\d{4,}/[^\s]+)`, right-stripped of `.,;`. -/
def findDoi (t : List Char) : Option (List Char) :=
  (searchFrom (fun i => doiCoreAt t i) 0 (t.length + 1)).map rstripDotCommaSemi

/-- The case-sensitive literal `lit` matches at index `i` of `t`. -/
def matchLitAt (t lit : List Char) (i : Nat) : Bool :=
  decide (i + lit.length ≤ t.length) &&
    (List.range lit.length).all (fun k => charAt t (i + k) == charAt lit k)

/-- A match of `https?://[^\s]+` at index `i` of `t` (the greedy `s?` tries
the `https` scheme first). -/
def urlAt (t : List Char) (i : Nat) : Option (List Char) :=
  if matchLitAt t ("https://".toList) i then
    let r := nonWsRunLen t (i + 8)
    if 1 ≤ r then some (pySlice t i (i + 8 + r)) else none
  else if matchLitAt t ("http://".toList) i then
    let r := nonWsRunLen t (i + 7)
    if 1 ≤ r then some (pySlice t i (i + 7 + r)) else none
  else none

/-- The URL probe of `_parse_single_reference`: first match of
`(https?://[^\s]+)`, right-stripped of `.,;`. -/
def findUrl (t : List Char) : Option (List Char) :=
  (searchFrom (fun i => urlAt t i) 0 (t.length + 1)).map rstripDotCommaSemi

/-- Substring test: the literal `pat` occurs somewhere in `t` (Python `in`). -/
def containsSeq (pat t : List Char) : Bool :=
  (List.range (t.length + 1)).any (fun i => matchLitAt t pat i)

/-- Python `str.lower()` (ASCII). -/
def pyLower (l : List Char) : List Char := l.map Char.toLower

/-- A match of `lit` + `\s*`/`\s+` + `(\d+)` at index `i` of `t` under
`re.IGNORECASE`, with an optional leading `\b`; the shape of the volume and
issue patterns.  Returns the digit capture. -/
def litWsDigitsCapAt (t lit : List Char) (needWs needBd : Bool) (i : Nat) :
    Option (List Char) :=
  if (!needBd || (i == 0 || !wordChar (charAt t (i - 1)))) && matchCIAt t lit i then
    let w := wsRunLen t (i + lit.length)
    if needWs && decide (w = 0) then none
    else
      let d := digitRunLen t (i + lit.length + w)
      if 1 ≤ d then
        some (pySlice t (i + lit.length + w) (i + lit.length + w + d))
      else none
  else none

/-- One `re.search` pass for a pattern probe over all of `t`. -/
def searchPat (f : Nat → Option (List Char)) (n : Nat) : Option (List Char) :=
  searchFrom f 0 (n + 1)

/-- `ReferenceParser._extract_volume`: `vol\. (\d+)`, `volume (\d+)`,
`\bv\. (\d+)` in priority order (case-insensitive). -/
def extractVolume (t : List Char) : Option (List Char) :=
  match searchPat (litWsDigitsCapAt t ("vol.".toList) false false) t.length with
  | some v => some v
  | none =>
    match searchPat (litWsDigitsCapAt t ("volume".toList) true false) t.length with
    | some v => some v
    | none => searchPat (litWsDigitsCapAt t ("v.".toList) false true) t.length

/-- `ReferenceParser._extract_issue`: `no\. (\d+)`, `number (\d+)`,
`issue (\d+)`, `\bn\. (\d+)` in priority order (case-insensitive). -/
def extractIssue (t : List Char) : Option (List Char) :=
  match searchPat (litWsDigitsCapAt t ("no.".toList) false false) t.length with
  | some v => some v
  | none =>
    match searchPat (litWsDigitsCapAt t ("number".toList) true false) t.length with
    | some v => some v
    | none =>
      match searchPat (litWsDigitsCapAt t ("issue".toList) true false) t.length with
      | some v => some v
      | none => searchPat (litWsDigitsCapAt t ("n.".toList) false true) t.length

/-- Length of the run of `[\d\-]` characters of `t` starting at index `i`. -/
def pgRunLen (t : List Char) (i : Nat) : Nat :=
  ((t.drop i).takeWhile (fun c => c.isDigit || c = '-')).length

/-- A match of `pp\.\s*([\d\-]+)` at index `i` of `t` (case-insensitive). -/
def ppCapAt (t : List Char) (i : Nat) : Option (List Char) :=
  if matchCIAt t ("pp.".toList) i then
    let w := wsRunLen t (i + 3)
    let r := pgRunLen t (i + 3 + w)
    if 1 ≤ r then some (pySlice t (i + 3 + w) (i + 3 + w + r)) else none
  else none

/-- A match of `pages?\s+([\d\-]+)` at index `i` of `t` (case-insensitive;
the optional `s` is consumed greedily). -/
def pageCapAt (t : List Char) (i : Nat) : Option (List Char) :=
  if matchCIAt t ("page".toList) i then
    let s := if lowerEq (charAt t (i + 4)) 's' then 1 else 0
    let w := wsRunLen t (i + 4 + s)
    if 1 ≤ w then
      let r := pgRunLen t (i + 4 + s + w)
      if 1 ≤ r then some (pySlice t (i + 4 + s + w) (i + 4 + s + w + r)) else none
    else none
  else none

/-- An en or em dash (the source normalizes both to `-`). -/
def enEmDash (c : Char) : Bool := c = Char.ofNat 8211 || c = Char.ofNat 8212

/-- A match of `,\s*([\d]+)\s*[-–—]\s*([\d]+)` at index `i` of `t`; the
result is `f"{g1}-{g2}"`. -/
def commaRangeCapAt (t : List Char) (i : Nat) : Option (List Char) :=
  if charAt t i = ',' then
    let w1 := wsRunLen t (i + 1)
    let d1 := digitRunLen t (i + 1 + w1)
    if 1 ≤ d1 then
      let w2 := wsRunLen t (i + 1 + w1 + d1)
      let dp := i + 1 + w1 + d1 + w2
      if charAt t dp = '-' || enEmDash (charAt t dp) then
        let w3 := wsRunLen t (dp + 1)
        let d2 := digitRunLen t (dp + 1 + w3)
        if 1 ≤ d2 then
          some (pySlice t (i + 1 + w1) (i + 1 + w1 + d1) ++ ['-'] ++
            pySlice t (dp + 1 + w3) (dp + 1 + w3 + d2))
        else none
      else none
    else none
  else none

/-- `str.replace('–','-').replace('—','-')`. -/
def dashNorm (l : List Char) : List Char := l.map (fun c => if enEmDash c then '-' else c)

/-- `ReferenceParser._extract_pages`: `pp\. <run>`, `pages? <run>`, then a
bare `, <n>-<n>` pattern, in priority order. -/
def extractPages (t : List Char) : Option (List Char) :=
  match searchPat (ppCapAt t) t.length with
  | some v => some (dashNorm v)
  | none =>
    match searchPat (pageCapAt t) t.length with
    | some v => some (dashNorm v)
    | none => searchPat (commaRangeCapAt t) t.length

/-- Python `text.split(c)[0]`: the prefix before the first occurrence of `c`. -/
def beforeFirstChar (t : List Char) (c : Char) : List Char :=
  t.takeWhile (fun x => x ≠ c)

/-- `re.sub(r'^\[\d+\]\s*', '', l)`: strip one leading bracket-number token
and the following whitespace. -/
def stripLeadingBracketNum (l : List Char) : List Char :=
  match bracketTokenLen l 0 with
  | some L => l.drop (L + wsRunLen l L)
  | none => l

/-- The author-part computation of `_extract_authors`: the text before the
first opening quote of the first pair present (whole text otherwise or when
no title), stripped of `' ,:;'`, its leading reference number removed, then
cleaned. -/
def authorPartOf (t title : List Char) : List Char :=
  let ap :=
    if title ≠ [] then
      match quotePairs.find? (fun p => t.contains p.1) with
      | some p => beforeFirstChar t p.1
      | none => t
    else t
  cleanField (stripLeadingBracketNum (pyStripChars (" ,:;".toList) ap))

/-- A match of the split delimiter `\s+and\s+` (case-insensitive) at index
`i` of `t`, returning the span length. -/
def andMatchLen (t : List Char) (i : Nat) : Option Nat :=
  let w1 := wsRunLen t i
  if 1 ≤ w1 ∧ lowerEq (charAt t (i + w1)) 'a' ∧ lowerEq (charAt t (i + w1 + 1)) 'n' ∧
      lowerEq (charAt t (i + w1 + 2)) 'd' then
    let w2 := wsRunLen t (i + w1 + 3)
    if 1 ≤ w2 then some (w1 + 3 + w2) else none
  else none

/-- `re.split(r'\s+and\s+', t, flags=re.IGNORECASE)`. -/
def splitOnAnd (t : List Char) : List (List Char) :=
  splitScan t (andMatchLen t) (t.length + 1) 0 []

/-- `ReferenceParser._extract_authors`. -/
def extractAuthors (t title : List Char) : List (List Char) :=
  let ap := authorPartOf t title
  if ap = [] then []
  else
    let authors :=
      if containsSeq (" and ".toList) (pyLower ap) then
        ((splitOnAnd ap).filter (fun p => pyStripWs p ≠ [])).map cleanField
      else
        let parts := splitOnChar ',' ap
        if 2 ≤ parts.length then ((parts.filter (fun p => pyStripWs p ≠ [])).map cleanField)
        else [ap]
    authors.filter (fun a => a ≠ [] ∧ 2 < a.length)

/-- Python `str.rfind(c)` for a character known to occur: the last index. -/
def rfindChar (t : List Char) (c : Char) : Nat :=
  (t.enum.filter (fun p => p.2 = c)).foldl (fun _ p => p.1) 0

/-- The post-title text of `_extract_journal_info`: the text after the last
closing quote of the first pair whose closing quote is present, stripped of
`' ,:;'` (whole text otherwise or when no title). -/
def postTitleOf (t title : List Char) : List Char :=
  if title ≠ [] then
    match quotePairs.find? (fun p => t.contains p.2) with
    | some p => pyStripChars (" ,:;".toList) (t.drop (rfindChar t p.2 + 1))
    | none => t
  else t

/-- `re.sub` removing all matches of matcher `m` from `t` (left-to-right,
non-overlapping); fuel larger than the text length never runs out. -/
def subAllScan (t : List Char) (m : Nat → Option Nat) : Nat → Nat → List Char
  | 0, i => t.drop i
  | fuel + 1, i =>
    if t.length ≤ i then []
    else
      match m i with
      | some (L + 1) => subAllScan t m fuel (i + L + 1)
      | _ => charAt t i :: subAllScan t m fuel (i + 1)

/-- `re.sub(r'\b(19|20)\d{2}\b', '', l)`. -/
def subAllYear (l : List Char) : List Char :=
  subAllScan l (fun i => if yearTokAt l i then some 4 else none) (l.length + 1) 0

/-- Whole-match length of `vol\.\s*\d+` at index `i` (case-insensitive). -/
def volMatchLenAt (l : List Char) (i : Nat) : Option Nat :=
  if matchCIAt l ("vol.".toList) i then
    let w := wsRunLen l (i + 4)
    let d := digitRunLen l (i + 4 + w)
    if 1 ≤ d then some (4 + w + d) else none
  else none

/-- Whole-match length of `no\.\s*\d+` at index `i` (case-insensitive). -/
def noMatchLenAt (l : List Char) (i : Nat) : Option Nat :=
  if matchCIAt l ("no.".toList) i then
    let w := wsRunLen l (i + 3)
    let d := digitRunLen l (i + 3 + w)
    if 1 ≤ d then some (3 + w + d) else none
  else none

/-- Whole-match length of `pp\.\s*[\d\-]+` at index `i` (case-insensitive). -/
def ppMatchLenAt (l : List Char) (i : Nat) : Option Nat :=
  if matchCIAt l ("pp.".toList) i then
    let w := wsRunLen l (i + 3)
    let r := pgRunLen l (i + 3 + w)
    if 1 ≤ r then some (3 + w + r) else none
  else none

/-- The conference keywords of `_extract_journal_info`. -/
def confKeywords : List (List Char) :=
  ["conference".toList, "proc".toList, "proceedings".toList,
   "symposium".toList, "workshop".toList, "congress".toList]

/-- `ReferenceParser._extract_journal_info` as `(journal, booktitle,
publisher)`: the post-title text with year/volume/issue/page fragments
removed and cleaned, classified by the conference keywords. -/
def extractJournalInfo (t title : List Char) : List Char × List Char × List Char :=
  let post := postTitleOf t title
  let post := subAllYear post
  let post := subAllScan post (volMatchLenAt post) (post.length + 1) 0
  let post := subAllScan post (noMatchLenAt post) (post.length + 1) 0
  let post := subAllScan post (ppMatchLenAt post) (post.length + 1) 0
  let post := cleanField post
  if confKeywords.any (fun kw => containsSeq kw (pyLower post)) then ([], post, [])
  else (post, [], [])

/-- `ReferenceParser._determine_citation_type`. -/
def determineCitationType (t booktitle : List Char) : List Char :=
  let low := pyLower t
  if booktitle ≠ [] then "inproceedings".toList
  else if [("conference".toList), ("proc".toList), ("symposium".toList),
      ("workshop".toList)].any (fun kw => containsSeq kw low) then
    "inproceedings".toList
  else if [("book".toList), ("edition".toList), ("isbn".toList)].any
      (fun kw => containsSeq kw low) then
    "book".toList
  else if [("thesis".toList), ("dissertation".toList)].any
      (fun kw => containsSeq kw low) then
    "phdthesis".toList
  else if containsSeq ("technical report".toList) low ||
      containsSeq ("tech. rep".toList) low then
    "techreport".toList
  else "article".toList

/-- The `ParsedReference` record of the source, with the confidence score
held as a `Nat` in hundredths (0.15 -> 15 and so on, clamp at 100 for 1.0);
the fields never assigned by the parser are kept for record equality. -/
structure ParsedReference where
  raw_text : List Char
  ref_number : List Char
  authors : List (List Char)
  title : List Char
  year : List Char
  journal : List Char
  booktitle : List Char
  volume : List Char
  issue : List Char
  pages : List Char
  publisher : List Char
  doi : List Char
  url : List Char
  isbn : List Char
  issn : List Char
  abstract : List Char
  keywords : List (List Char)
  citation_type : List Char
  confidence : Nat
  parsing_notes : List (List Char)
deriving DecidableEq, Repr

/-- A reference record with only a title and a confidence, all other fields
at their dataclass defaults; used to build Deduplicator inputs. -/
def mkRef (title : List Char) (conf : Nat) : ParsedReference :=
  { raw_text := [], ref_number := [], authors := [], title := title, year := [],
    journal := [], booktitle := [], volume := [], issue := [], pages := [],
    publisher := [], doi := [], url := [], isbn := [], issn := [], abstract := [],
    keywords := [], citation_type := ("article".toList), confidence := conf,
    parsing_notes := [] }

/-- The entry text after the leading `[n]` strip of
`_parse_single_reference`: when `^\[(\d+)\]` matches, the remainder of the
text, whitespace-stripped; the whole entry otherwise. -/
def strippedText (t : List Char) : List Char :=
  match bracketTokenLen t 0 with
  | some L => pyStripWs (t.drop L)
  | none => t

/-- The `ref_number` capture of `_parse_single_reference`: the digits of a
leading `[n]` token when present, `str(ref_num)` otherwise. -/
def refNumberOf (t : List Char) (refNum : Nat) : List Char :=
  match bracketTokenLen t 0 with
  | some L => pySlice t 1 (L - 1)
  | none => (Nat.repr refNum).toList

/-- `ReferenceParser._parse_single_reference`: rejects entries shorter than
10 characters; otherwise strips a leading `[n]` (see `strippedText` and
`refNumberOf` above), probes every field on the stripped text, sums the
confidence contributions in source order (DOI 15, URL 5, title 25, year 15,
authors 20, volume 10, pages 10, in hundredths) and clamps at 100. -/
def parseSingleReference (t : List Char) (refNum : Nat) : Option ParsedReference :=
  if t.length < 10 then none
  else
    let refNo := refNumberOf t refNum
    let text := strippedText t
    let doi := findDoi text
    let url := findUrl text
    let q := extractQuotedText text
    let title := if q ≠ [] then q else "Untitled".toList
    let yr := findYear text
    let auth := extractAuthors text title
    let jinfo := extractJournalInfo text title
    let ctype := determineCitationType text jinfo.2.1
    let vol := (extractVolume text).getD []
    let iss := (extractIssue text).getD []
    let pgs := (extractPages text).getD []
    let conf :=
      (if doi.isSome then 15 else 0) + (if url.isSome then 5 else 0) +
      (if q ≠ [] then 25 else 0) + (if yr.isSome then 15 else 0) +
      (if auth ≠ [] then 20 else 0) + (if vol ≠ [] then 10 else 0) +
      (if pgs ≠ [] then 10 else 0)
    let notes :=
      (if q = [] then [("No quoted title found".toList)] else []) ++
      (if yr.isNone then [("No year found".toList)] else []) ++
      (if auth = [] then [("No authors found".toList)] else [])
    some
      { raw_text := t, ref_number := refNo, authors := auth, title := title,
        year := yr.getD [], journal := jinfo.1, booktitle := jinfo.2.1,
        volume := vol, issue := iss, pages := pgs, publisher := jinfo.2.2,
        doi := doi.getD [], url := url.getD [], isbn := [], issn := [],
        abstract := [], keywords := [], citation_type := ctype,
        confidence := min 100 conf, parsing_notes := notes }

/-- Ascending occurrence positions of `c` in `b` within `[blo, bhi)`: the
`b2j` lookup of difflib's `SequenceMatcher` (no junk: the inputs here are
far below the 200-character autojunk threshold, and no isjunk is passed). -/
def occsIn (b : List Char) (c : Char) (blo bhi : Nat) : List Nat :=
  (List.range bhi).filter (fun j => decide (blo ≤ j) && decide (j < b.length) &&
    (charAt b j == c))

/-- One occurrence step of `SequenceMatcher.find_longest_match`'s inner loop:
extend the diagonal run ending at `(i, j)` and update the best block. -/
def flmStep (j2len : List (Nat × Nat)) (i : Nat)
    (acc : List (Nat × Nat) × (Nat × Nat × Nat)) (j : Nat) :
    List (Nat × Nat) × (Nat × Nat × Nat) :=
  let prev := if j = 0 then 0 else (j2len.lookup (j - 1)).getD 0
  let k := prev + 1
  let best := acc.2
  ((j, k) :: acc.1,
    if best.2.2 < k then (i + 1 - k, j + 1 - k, k) else best)

/-- One row (`for i in range(alo, ahi)`) of `find_longest_match`. -/
def flmRow (a b : List Char) (blo bhi : Nat)
    (st : List (Nat × Nat) × (Nat × Nat × Nat)) (i : Nat) :
    List (Nat × Nat) × (Nat × Nat × Nat) :=
  let res := (occsIn b (charAt a i) blo bhi).foldl (flmStep st.1 i) ([], st.2)
  (res.1, res.2)

/-- `SequenceMatcher.find_longest_match(alo, ahi, blo, bhi)` with no junk:
the longest block `(besti, bestj, bestsize)` with ties broken by smallest
`i`, then smallest `j` (the iteration order of the loops). -/
def findLongestMatch (a b : List Char) (alo ahi blo bhi : Nat) : Nat × Nat × Nat :=
  (((List.range' alo (ahi - alo)).foldl (flmRow a b blo bhi) ([], (alo, blo, 0)))).2

/-- Total size of the matching blocks of `SequenceMatcher.get_matching_blocks`
restricted to the range `[alo,ahi) x [blo,bhi)`: the recursive decomposition
around each longest match.  The fuel argument bounds the recursion depth;
each level shrinks the ranges, so any fuel above `ahi + bhi` is enough. -/
def matchedTotal (a b : List Char) : Nat → Nat → Nat → Nat → Nat → Nat
  | _, _, _, _, 0 => 0
  | alo, ahi, blo, bhi, fuel + 1 =>
    let m := findLongestMatch a b alo ahi blo bhi
    let i := m.1
    let j := m.2.1
    let k := m.2.2
    if k = 0 then 0
    else
      k + (if alo < i ∧ blo < j then matchedTotal a b alo i blo j fuel else 0) +
        (if i + k < ahi ∧ j + k < bhi then matchedTotal a b (i + k) ahi (j + k) bhi fuel else 0)

/-- `SequenceMatcher(None, a, b).ratio()` as the exact fraction
`2*M / (len(a)+len(b))`, kept unreduced as a numerator/denominator pair
(difflib returns 1.0 when both sequences are empty). -/
def ratioPair (a b : List Char) : Nat × Nat :=
  let T := a.length + b.length
  if T = 0 then (1, 1)
  else (2 * matchedTotal a b 0 a.length 0 b.length (T + 1), T)

/-- Python `str.split()` (no argument): the whitespace-separated words. -/
def splitWsAux : List Char → List Char → List (List Char)
  | [], cur => if cur ≠ [] then [cur.reverse] else []
  | c :: rest, cur =>
    if pyWsChar c then
      if cur ≠ [] then cur.reverse :: splitWsAux rest [] else splitWsAux rest []
    else splitWsAux rest (c :: cur)

/-- See `splitWsAux`. -/
def pyWords (l : List Char) : List (List Char) := splitWsAux l []

/-- Keep the first occurrence of each word: Python `set(...)` as a
duplicate-free list. -/
def insertIfNew (acc : List (List Char)) (x : List Char) : List (List Char) :=
  if x ∈ acc then acc else acc ++ [x]

/-- The word set of `s.split()`, as a duplicate-free list. -/
def wordSet (l : List Char) : List (List Char) := (pyWords l).foldl insertIfNew []

/-- The Jaccard word similarity `len(w1 & w2) / len(w1 | w2)` (0 when either
word set is empty), as an exact fraction pair. -/
def wordSimPair (a b : List Char) : Nat × Nat :=
  let A := wordSet a
  let B := wordSet b
  if A ≠ [] ∧ B ≠ [] then
    ((A.filter (fun w => decide (w ∈ B))).length,
      (A ++ B.filter (fun w => decide (w ∉ A))).length)
  else (0, 1)

/-- The normalization `str.lower().strip()` applied by
`_calculate_similarity` to both inputs. -/
def simNorm (s : List Char) : List Char := pyStripWs (pyLower s)

/-- `ReferenceParser._calculate_similarity`: 0 for an empty input, otherwise
the average of the character ratio and the Jaccard word similarity of the
lower-cased, stripped strings — `(c/cd + w/wd) / 2` as the exact fraction
`(c*wd + w*cd) / (2*cd*wd)`. -/
def simPair (s1 s2 : List Char) : Nat × Nat :=
  if s1 = [] ∨ s2 = [] then (0, 1)
  else
    let a := simNorm s1
    let b := simNorm s2
    let cr := ratioPair a b
    let ws := wordSimPair a b
    (cr.1 * ws.2 + ws.1 * cr.2, 2 * cr.2 * ws.2)

/-- Equality of two fractions given as numerator/denominator pairs. -/
def fracEq (p q : Nat × Nat) : Prop := p.1 * q.2 = q.1 * p.2

instance (p q : Nat × Nat) : Decidable (fracEq p q) := by
  unfold fracEq
  infer_instance

/-- The duplicate test `similarity > 0.85` by exact cross multiplication. -/
def simGT85 (p : Nat × Nat) : Bool := 17 * p.2 < 20 * p.1

/-- Python `list.remove(x)`: drop the first element equal to `x`. -/
def removeFirst : List ParsedReference → ParsedReference → List ParsedReference
  | [], _ => []
  | a :: rest, x => if a = x then rest else a :: removeFirst rest x

/-- One iteration of `_remove_duplicates`: scan the accumulated `unique`
list for the first record whose title similarity with the incoming record
exceeds 0.85; replace it (remove + append) when the incoming confidence is
strictly greater, drop the incoming record otherwise, and append the
incoming record when no accumulated record is similar. -/
def dedupStep (unique : List ParsedReference) (r : ParsedReference) :
    List ParsedReference :=
  match unique.find? (fun e => simGT85 (simPair r.title e.title)) with
  | none => unique ++ [r]
  | some e =>
    if e.confidence < r.confidence then removeFirst unique e ++ [r] else unique

/-- `ReferenceParser._remove_duplicates`. -/
def removeDuplicates (refs : List ParsedReference) : List ParsedReference :=
  refs.foldl dedupStep []

theorem searchKwList_cons_some {t kw : List Char} {rest : List (List Char)} {i : Nat}
    (h : findKwCI t kw = some i) :
    searchKwList t (kw :: rest) = some (i, kw.length) := by
  simp [searchKwList, h]

theorem detect_end_of_appendix (t : List Char) (s i : Nat)
    (hS : detectStart t = some s)
    (hA : findKwCI (t.drop s) ("APPENDIX".toList) = some i) :
    (detectReferencesSection t).2 = ((s + i : Nat) : Int) := by
  have hend : searchKwList (t.drop s) endKeywords = some (i, ("APPENDIX".toList).length) := by
    unfold endKeywords
    exact searchKwList_cons_some hA
  unfold detectReferencesSection
  rw [hS]
  simp [hend]

set_option maxRecDepth 40000

/-- A start-keyword match in priority position 1 fixes `detectStart`. -/
theorem detectStart_of_references {t : List Char} {i : Nat}
    (hR : findKwCI t ("REFERENCES".toList) = some i) :
    detectStart t = some (i + 10) := by
  have hlen : ("REFERENCES".toList).length = 10 := by decide
  unfold detectStart startKeywords
  rw [searchKwList_cons_some hR]
  simp [hlen]

/-- The document of the Section Locator counterexample: the start keyword
matches, and both `ACKNOWLEDGMENT` (earlier) and `APPENDIX` (later) match
in the remainder. -/
def cOneText : List Char := "REFERENCES aa ACKNOWLEDGMENT bb APPENDIX cc".toList

/-- The document for the start-priority claim: a whole-word `REFERENCE`
occurs before a whole-word `REFERENCES`. -/
def cEightText : List Char := "REFERENCE aa REFERENCES bb".toList

/-- C1: the claim says the end offset is the earliest literal match position
among the three end keywords.  On `cOneText` the earliest end keyword in the
remainder is `ACKNOWLEDGMENT` at offset 4, yet `detect_references_section`
returns end = 32 (the position of `APPENDIX`), not 10 + 4 = 14: the end
search follows the pattern list order, not the match position. -/
theorem c1_counterexample :
    detectReferencesSection cOneText = (10, 32) ∧
    earliestEndKwPos (cOneText.drop 10) = some 4 ∧
    (detectReferencesSection cOneText).2 ≠ ((10 + 4 : Nat) : Int) := by
  refine ⟨by decide, by decide, by decide⟩

theorem searchKwList_cons_none {t kw : List Char} {rest : List (List Char)}
    (h : findKwCI t kw = none) :
    searchKwList t (kw :: rest) = searchKwList t rest := by
  simp [searchKwList, h]

/-- C1 (amended): whenever the start keyword matches (start offset `s`),
`detect_references_section` sets end at `s` plus the match position of the
first pattern in the listed priority order `APPENDIX`, `ACKNOWLEDGMENT`,
`ACKNOWLEDGEMENT` that matches the remainder — list-order priority, not
earliest position.  The three conjuncts cover every configuration: an
`APPENDIX` match wins outright; with no `APPENDIX` match, `ACKNOWLEDGMENT`'s
position wins (even when `ACKNOWLEDGEMENT` occurs earlier in the text); with
neither, `ACKNOWLEDGEMENT`'s position is used. -/
theorem c1_end_keyword_priority (t : List Char) (s : Nat)
    (hS : detectStart t = some s) :
    (∀ i, findKwCI (t.drop s) ("APPENDIX".toList) = some i →
      (detectReferencesSection t).2 = ((s + i : Nat) : Int)) ∧
    (findKwCI (t.drop s) ("APPENDIX".toList) = none →
      ∀ j, findKwCI (t.drop s) ("ACKNOWLEDGMENT".toList) = some j →
      (detectReferencesSection t).2 = ((s + j : Nat) : Int)) ∧
    (findKwCI (t.drop s) ("APPENDIX".toList) = none →
      findKwCI (t.drop s) ("ACKNOWLEDGMENT".toList) = none →
      ∀ k, findKwCI (t.drop s) ("ACKNOWLEDGEMENT".toList) = some k →
      (detectReferencesSection t).2 = ((s + k : Nat) : Int)) := by
  refine ⟨fun i hA => detect_end_of_appendix t s i hS hA, ?_, ?_⟩
  · intro hA j hM
    have hend : searchKwList (t.drop s) endKeywords =
        some (j, ("ACKNOWLEDGMENT".toList).length) := by
      unfold endKeywords
      rw [searchKwList_cons_none hA]
      exact searchKwList_cons_some hM
    unfold detectReferencesSection
    rw [hS]
    simp [hend]
  · intro hA hM k hE
    have hend : searchKwList (t.drop s) endKeywords =
        some (k, ("ACKNOWLEDGEMENT".toList).length) := by
      unfold endKeywords
      rw [searchKwList_cons_none hA, searchKwList_cons_none hM]
      exact searchKwList_cons_some hE
    unfold detectReferencesSection
    rw [hS]
    simp [hend]

/-- A remainder with no `APPENDIX`, where `ACKNOWLEDGEMENT` occurs earlier
(remainder offset 3) than `ACKNOWLEDGMENT` (remainder offset 22). -/
def cOneNoAppText : List Char :=
  "REFERENCES x ACKNOWLEDGEMENT yy ACKNOWLEDGMENT z".toList

/-- A remainder where only `ACKNOWLEDGEMENT` matches (remainder offset 3). -/
def cOneOnlyEText : List Char := "REFERENCES x ACKNOWLEDGEMENT z".toList

/-- Witness for `c1_end_keyword_priority`, exercising all three branches:
`APPENDIX` present (`cOneText`); `APPENDIX` absent with `ACKNOWLEDGMENT`
winning by list order over an earlier `ACKNOWLEDGEMENT` (`cOneNoAppText`);
only `ACKNOWLEDGEMENT` present (`cOneOnlyEText`). -/
theorem c1_end_keyword_priority_witness :
    (detectReferencesSection cOneText).2 = ((10 + 22 : Nat) : Int) ∧
    (detectReferencesSection cOneNoAppText).2 = ((10 + 22 : Nat) : Int) ∧
    (detectReferencesSection cOneOnlyEText).2 = ((10 + 3 : Nat) : Int) :=
  ⟨(c1_end_keyword_priority cOneText 10 (by decide)).1 22 (by decide),
    (c1_end_keyword_priority cOneNoAppText 10 (by decide)).2.1 (by decide) 22
      (by decide),
    (c1_end_keyword_priority cOneOnlyEText 10 (by decide)).2.2 (by decide)
      (by decide) 3 (by decide)⟩

/-- C8: whenever whole-word `REFERENCES` first matches at `i` and whole-word
`REFERENCE` first matches at an earlier `j`, the section start is still the
end of the `REFERENCES` match (`i + 10`): the start patterns are tried in
priority order, so the plural form wins even though the singular occurs
earlier in the text. -/
theorem c8_references_priority (t : List Char) (i j : Nat)
    (hR : findKwCI t ("REFERENCES".toList) = some i)
    (hr : findKwCI t ("REFERENCE".toList) = some j)
    (hji : j < i) :
    detectStart t = some (i + 10) ∧
    (detectReferencesSection t).1 = ((i + 10 : Nat) : Int) := by
  have hs := detectStart_of_references hR
  refine ⟨hs, ?_⟩
  unfold detectReferencesSection
  rw [hs]
  cases hE : searchKwList (t.drop (i + 10)) endKeywords with
  | none => simp [hE]
  | some p => simp [hE]

/-- Witness for `c8_references_priority` at `cEightText`. -/
theorem c8_references_priority_witness :
    detectStart cEightText = some 23 ∧
    (detectReferencesSection cEightText).1 = ((13 + 10 : Nat) : Int) :=
  c8_references_priority cEightText 13 0 (by decide) (by decide) (by decide)

/-- C7: an entry shorter than 10 characters is always rejected. -/
theorem c7_short_entry_rejected (t : List Char) (n : Nat) (h : t.length < 10) :
    parseSingleReference t n = none := by
  unfold parseSingleReference
  rw [if_pos h]

/-- Witness for `c7_short_entry_rejected` at the 5-character entry. -/
theorem c7_short_entry_rejected_witness :
    parseSingleReference ("short".toList) 3 = none :=
  c7_short_entry_rejected ("short".toList) 3 (by decide)

/-- The raw reference string of the spec's worked example. -/
def cTwoRaw : List Char :=
  "[3] J. Smith, \"A Great Paper,\" IEEE Trans., vol. 5, no. 2, pp. 10-20, 2020.".toList

/-- The single entry the bracket-numbered strategy extracts from `cTwoRaw`
(the capture excludes the `[3]` token and the following space). -/
def cTwoEntry : List Char :=
  "J. Smith, \"A Great Paper,\" IEEE Trans., vol. 5, no. 2, pp. 10-20, 2020.".toList

/-- C2: the segmentation and all claimed field values hold, but the
confidence is 0.80 (title 0.25 + year 0.15 + authors 0.20 + volume 0.10 +
pages 0.10; no DOI and no URL match), which is not ≥ 0.9 as the claim
states. -/
theorem c2_counterexample :
    splitReferences cTwoRaw = [cTwoEntry] ∧
    (parseSingleReference cTwoEntry 1).map
        (fun r => (r.title, r.year, r.volume)) =
      some ("A Great Paper".toList, "2020".toList, "5".toList) ∧
    (parseSingleReference cTwoEntry 1).map
        (fun r => (r.issue, r.pages, r.citation_type)) =
      some ("2".toList, "10-20".toList, "article".toList) ∧
    (parseSingleReference cTwoEntry 1).map (fun r => r.confidence) = some 80 ∧
    ¬ (90 ≤ 80) := by
  refine ⟨by decide, by decide, by decide, by decide, by decide⟩

/-- C2 (amended): segmentation yields the entry as the single capture, and
field extraction returns title `A Great Paper`, year `2020`, volume `5`,
issue `2`, pages `10-20`, citation type `article`, with confidence exactly
0.80 (hence ≥ 0.8 but below 0.9). -/
theorem c2_example_fields :
    splitReferences cTwoRaw = [cTwoEntry] ∧
    (parseSingleReference cTwoEntry 1).map
        (fun r => (r.title, r.year, r.volume)) =
      some ("A Great Paper".toList, "2020".toList, "5".toList) ∧
    (parseSingleReference cTwoEntry 1).map
        (fun r => (r.issue, r.pages, r.citation_type)) =
      some ("2".toList, "10-20".toList, "article".toList) ∧
    (parseSingleReference cTwoEntry 1).map (fun r => r.confidence) = some 80 ∧
    80 < 90 := by
  refine ⟨by decide, by decide, by decide, by decide, by decide⟩

/-- The decimal digit characters of a number below 10000. -/
def yearDigits (y : Nat) : List Char :=
  [Char.ofNat (48 + y / 1000), Char.ofNat (48 + y / 100 % 10),
   Char.ofNat (48 + y / 10 % 10), Char.ofNat (48 + y % 10)]

theorem charAt_drop (t : List Char) (i k : Nat) :
    charAt (t.drop i) k = charAt t (i + k) := by
  unfold charAt
  rw [List.getD_eq_getElem?_getD, List.getD_eq_getElem?_getD, List.getElem?_drop]

theorem pySlice_four {t : List Char} {i : Nat} {a b c d : Char}
    (h : pySlice t i (i + 4) = [a, b, c, d]) :
    charAt t i = a ∧ charAt t (i + 1) = b ∧ charAt t (i + 2) = c ∧
      charAt t (i + 3) = d ∧ i + 4 ≤ t.length := by
  have h4 : i + 4 - i = 4 := by omega
  unfold pySlice at h
  rw [h4] at h
  rcases hd : t.drop i with _ | ⟨x0, l0⟩ <;> rw [hd] at h
  · simp at h
  rcases l0 with _ | ⟨x1, l1⟩
  · simp at h
  rcases l1 with _ | ⟨x2, l2⟩
  · simp at h
  rcases l2 with _ | ⟨x3, l3⟩
  · simp at h
  · simp only [List.take] at h
    obtain ⟨rfl, rfl, rfl, rfl⟩ : x0 = a ∧ x1 = b ∧ x2 = c ∧ x3 = d := by
      injection h with h0 h; injection h with h1 h; injection h with h2 h
      injection h with h3 h
      exact ⟨h0, h1, h2, h3⟩
    have hlen : 4 ≤ (t.drop i).length := by rw [hd]; simp
    rw [List.length_drop] at hlen
    refine ⟨?_, ?_, ?_, ?_, by omega⟩
    · rw [show i = i + 0 by omega, ← charAt_drop, hd]; rfl
    · rw [← charAt_drop, hd]; rfl
    · rw [← charAt_drop, hd]; rfl
    · rw [← charAt_drop, hd]; rfl

theorem digit_char_isDigit {n : Nat} (h : n ≤ 9) :
    (Char.ofNat (48 + n)).isDigit = true := by
  interval_cases n <;> decide

/-- The year token test holds where the digit string of a year in
`[1900, 2099]` sits on word boundaries. -/
theorem yearTok_of_digits {t : List Char} {i Y : Nat}
    (h1 : 1900 ≤ Y) (h2 : Y ≤ 2099)
    (hs : pySlice t i (i + 4) = yearDigits Y)
    (hb1 : i = 0 ∨ wordChar (charAt t (i - 1)) = false)
    (hb2 : wordChar (charAt t (i + 4)) = false) :
    yearTokAt t i = true := by
  obtain ⟨e0, e1, e2, e3, hlen⟩ := pySlice_four hs
  have hd2 : Y / 10 % 10 ≤ 9 := Nat.le_of_lt_succ (Nat.mod_lt _ (by omega))
  have hd3 : Y % 10 ≤ 9 := Nat.le_of_lt_succ (Nat.mod_lt _ (by omega))
  have hpre : (charAt t i = '1' ∧ charAt t (i + 1) = '9') ∨
      (charAt t i = '2' ∧ charAt t (i + 1) = '0') := by
    by_cases hc : Y ≤ 1999
    · left
      have q1 : Y / 1000 = 1 := by omega
      have q2 : Y / 100 % 10 = 9 := by omega
      rw [e0, e1, q1, q2]
      exact ⟨by decide, by decide⟩
    · right
      have q1 : Y / 1000 = 2 := by omega
      have q2 : Y / 100 % 10 = 0 := by omega
      rw [e0, e1, q1, q2]
      exact ⟨by decide, by decide⟩
  have d2 : (charAt t (i + 2)).isDigit = true := by
    rw [e2]; exact digit_char_isDigit hd2
  have d3 : (charAt t (i + 3)).isDigit = true := by
    rw [e3]; exact digit_char_isDigit hd3
  have pre : (decide (charAt t i = '1') && decide (charAt t (i + 1) = '9') ||
      (decide (charAt t i = '2') && decide (charAt t (i + 1) = '0'))) = true := by
    rcases hpre with ⟨ha, hb⟩ | ⟨ha, hb⟩ <;> rw [ha, hb] <;> decide
  have b1 : ((i == 0) || !wordChar (charAt t (i - 1))) = true := by
    rcases hb1 with h | h
    · subst h; rfl
    · rw [h]; simp
  unfold yearTokAt
  simp only [pre, d2, d3, b1, hb2]
  rfl

/-- The scan of `re.search` returns the first position satisfying `p` when
that position is in range and nothing earlier satisfies `p`. -/
theorem searchFrom_found (p : Nat → Bool) :
    ∀ (n start i : Nat), start ≤ i → i < start + n → p i = true →
    (∀ j, start ≤ j → j < i → p j = false) →
    searchFrom (fun k => if p k then some k else none) start n = some i := by
  intro n
  induction n with
  | zero => intro start i h1 h2 _ _; omega
  | succ n ih =>
    intro start i h1 h2 hp hmin
    unfold searchFrom
    by_cases hsi : start = i
    · subst hsi
      simp [hp]
    · have hlt : start < i := by omega
      have hfalse : p start = false := hmin start (Nat.le_refl _) hlt
      simp only [hfalse]
      simpa using ih (start + 1) i (by omega) (by omega) hp
        (fun j hj1 hj2 => hmin j (by omega) hj2)

/-- C4 (amended): year extraction returns the first whole-word
`(19|20)\d{2}` token, by position.  In particular, for any year `Y` with
`1900 ≤ Y ≤ 2099` embedded as a whole-word token at a position before which
no other year token occurs, extraction returns exactly the digits of `Y`.
(The original claim, without the first-token hypothesis, is refuted by
`c4_counterexample`.) -/
theorem c4_first_year_token (t : List Char) (i Y : Nat)
    (h1 : 1900 ≤ Y) (h2 : Y ≤ 2099)
    (hs : pySlice t i (i + 4) = yearDigits Y)
    (hb1 : i = 0 ∨ wordChar (charAt t (i - 1)) = false)
    (hb2 : wordChar (charAt t (i + 4)) = false)
    (hfirst : ∀ j, j < i → yearTokAt t j = false) :
    findYear t = some (yearDigits Y) := by
  have htok : yearTokAt t i = true := yearTok_of_digits h1 h2 hs hb1 hb2
  have hlen : i + 4 ≤ t.length := (pySlice_four hs).2.2.2.2
  have hsearch :
      searchFrom (fun k => if yearTokAt t k then some k else none) 0 (t.length + 1) =
        some i :=
    searchFrom_found (fun k => yearTokAt t k) (t.length + 1) 0 i (Nat.zero_le i)
      (by omega) htok (fun j _ hj => hfirst j hj)
  unfold findYear
  rw [hsearch, Option.map_some', hs]

/-- The document of the year counterexample: `1999` precedes `2020`. -/
def cFourText : List Char := "a 1999 b 2020 c".toList

/-- C4: on `a 1999 b 2020 c`, the year 2020 is embedded as a whole-word
token (at offset 9, bounded by spaces), yet year extraction returns
`"1999"`, not `"2020"`: the probe keeps the first match, not every embedded
year. -/
theorem c4_counterexample :
    pySlice cFourText 9 13 = "2020".toList ∧
    wordChar (charAt cFourText 8) = false ∧
    wordChar (charAt cFourText 13) = false ∧
    findYear cFourText = some ("1999".toList) ∧
    (parseSingleReference cFourText 1).map (fun r => r.year) =
      some ("1999".toList) ∧
    ("1999".toList : List Char) ≠ "2020".toList := by
  refine ⟨by decide, by decide, by decide, by decide, by decide, by decide⟩

/-- Witness for `c4_first_year_token` on `x 2020 y`. -/
theorem c4_first_year_token_witness :
    findYear ("x 2020 y".toList) = some (yearDigits 2020) :=
  c4_first_year_token ("x 2020 y".toList) 2 2020 (by decide) (by decide)
    (by decide) (Or.inr (by decide)) (by decide)
    (by decide)

/-- The entry with no extractable fields (length 16; every comma fragment is
too short to count as an author). -/
def cFiveEntry : List Char := "a, b, c, d, e, f".toList

/-- C5: the confidence of every accepted entry is clamped into the unit
interval (`min 100` in hundredths; the sum of contributions is a natural
number, so the lower bound 0 holds by construction), and the no-field entry
yields confidence 0 with title `Untitled`. -/
theorem c5_confidence_clamped :
    (∀ (t : List Char) (n : Nat) (r : ParsedReference),
      parseSingleReference t n = some r → r.confidence ≤ 100) ∧
    (parseSingleReference cFiveEntry 1).map (fun r => (r.confidence, r.title)) =
      some (0, "Untitled".toList) := by
  constructor
  · intro t n r h
    unfold parseSingleReference at h
    split at h
    · exact absurd h (by simp)
    · rw [← Option.some.inj h]
      exact Nat.min_le_left _ _
  · decide

/-- Witness for the universal half of `c5_confidence_clamped`, applied to
the concrete no-field entry. -/
theorem c5_confidence_clamped_witness :
    ∃ r, parseSingleReference cFiveEntry 1 = some r ∧ r.confidence ≤ 100 := by
  cases hp : parseSingleReference cFiveEntry 1 with
  | none =>
    have hsome : (parseSingleReference cFiveEntry 1).isSome = true := by decide
    rw [hp] at hsome
    exact absurd hsome (by simp)
  | some r => exact ⟨r, rfl, c5_confidence_clamped.1 cFiveEntry 1 r hp⟩

/-- The eight quote characters of the parser's four quote pairs. -/
def quoteChars : List Char :=
  ['"', Char.ofNat 8220, Char.ofNat 8221, '\'', Char.ofNat 8216, Char.ofNat 8217]

/-- The entry contains none of the quote characters. -/
def noQuoteChar (t : List Char) : Bool := t.all (fun c => decide (c ∉ quoteChars))

theorem mem_of_mem_dropWhile {p : Char → Bool} {c : Char} :
    ∀ {l : List Char}, c ∈ l.dropWhile p → c ∈ l := by
  intro l
  induction l with
  | nil => simp [List.dropWhile]
  | cons x xs ih =>
    simp only [List.dropWhile_cons]
    split
    · intro h
      exact List.mem_cons_of_mem _ (ih h)
    · exact id

theorem mem_of_mem_stripRight {c : Char} {l : List Char}
    (h : c ∈ stripRightWs l) : c ∈ l := by
  unfold stripRightWs at h
  rw [List.mem_reverse] at h
  exact List.mem_reverse.mp (mem_of_mem_dropWhile h)

theorem mem_of_mem_pyStrip {c : Char} {l : List Char}
    (h : c ∈ pyStripWs l) : c ∈ l := by
  unfold pyStripWs stripLeftWs at h
  exact mem_of_mem_dropWhile (mem_of_mem_stripRight h)

theorem mem_strippedText {t : List Char} {ch : Char}
    (h : ch ∈ strippedText t) : ch ∈ t := by
  unfold strippedText at h
  cases hb : bracketTokenLen t 0 with
  | none => rw [hb] at h; exact h
  | some L => rw [hb] at h; exact List.mem_of_mem_drop (mem_of_mem_pyStrip h)

theorem findQuotedPair_eq_none {o c : Char} :
    ∀ {l : List Char}, o ∉ l → findQuotedPair o c l = none := by
  intro l
  induction l with
  | nil => intro _; rfl
  | cons x xs ih =>
    intro h
    unfold findQuotedPair
    rw [if_neg]
    · exact ih (fun hx => h (List.mem_cons_of_mem _ hx))
    · intro hxo
      exact h (by rw [← hxo]; exact List.mem_cons_self x xs)

theorem not_mem_of_noQuote {t l : List Char} (hq : noQuoteChar t = true)
    (hsub : ∀ ch, ch ∈ l → ch ∈ t) {o : Char} (ho : o ∈ quoteChars) : o ∉ l := by
  intro hol
  have hall := List.all_eq_true.mp hq o (hsub o hol)
  exact (of_decide_eq_true hall) ho

theorem extractQuoted_nil_of_noQuote {t : List Char} (hq : noQuoteChar t = true) :
    extractQuotedText (strippedText t) = [] := by
  have hsub : ∀ ch, ch ∈ strippedText t → ch ∈ t := fun _ h => mem_strippedText h
  have h1 : findQuotedPair '"' '"' (strippedText t) = none :=
    findQuotedPair_eq_none (not_mem_of_noQuote hq hsub (by decide))
  have h2 : findQuotedPair (Char.ofNat 8220) (Char.ofNat 8221) (strippedText t) = none :=
    findQuotedPair_eq_none (not_mem_of_noQuote hq hsub (by decide))
  have h3 : findQuotedPair '\'' '\'' (strippedText t) = none :=
    findQuotedPair_eq_none (not_mem_of_noQuote hq hsub (by decide))
  have h4 : findQuotedPair (Char.ofNat 8216) (Char.ofNat 8217) (strippedText t) = none :=
    findQuotedPair_eq_none (not_mem_of_noQuote hq hsub (by decide))
  unfold extractQuotedText quotePairs
  simp only [extractQuotedAux, h1, h2, h3, h4]

theorem parse_title_untitled (t : List Char) (n : Nat)
    (hlen : 10 ≤ t.length) (hq : noQuoteChar t = true) :
    (parseSingleReference t n).map (fun r => r.title) = some ("Untitled".toList) := by
  have hnil := extractQuoted_nil_of_noQuote (t := t) hq
  unfold parseSingleReference
  rw [if_neg (by omega)]
  simp [hnil]

theorem simGT85_untitled :
    simGT85 (simPair ("Untitled".toList) ("Untitled".toList)) = true := by decide

theorem dedup_untitled_aux :
    ∀ (l acc : List ParsedReference),
      (∀ r ∈ l, r.title = "Untitled".toList) →
      (∀ e ∈ acc, e.title = "Untitled".toList) →
      acc.length ≤ 1 →
      (List.foldl dedupStep acc l).length ≤ 1 ∧
        ∀ e ∈ List.foldl dedupStep acc l, e.title = "Untitled".toList := by
  intro l
  induction l with
  | nil => intro acc _ hacc hlen; exact ⟨hlen, hacc⟩
  | cons r l ih =>
    intro acc hl hacc hlen
    have hr : r.title = "Untitled".toList := hl r (List.mem_cons_self r l)
    have hl2 : ∀ x ∈ l, x.title = "Untitled".toList :=
      fun x hx => hl x (List.mem_cons_of_mem r hx)
    rw [List.foldl_cons]
    rcases acc with _ | ⟨e, acc2⟩
    · have hstep : dedupStep [] r = [r] := rfl
      rw [hstep]
      refine ih [r] hl2 ?_ (by simp)
      intro x hx
      rw [List.mem_singleton] at hx
      rw [hx]
      exact hr
    rcases acc2 with _ | ⟨e2, rest⟩
    · have he : e.title = "Untitled".toList := hacc e (by simp)
      have hpred : simGT85 (simPair r.title e.title) = true := by
        rw [hr, he]
        exact simGT85_untitled
      have hfind :
          List.find? (fun x => simGT85 (simPair r.title x.title)) [e] = some e :=
        List.find?_cons_of_pos _ hpred
      have hstep : dedupStep [e] r =
          if e.confidence < r.confidence then removeFirst [e] e ++ [r] else [e] := by
        unfold dedupStep
        rw [hfind]
      rw [hstep]
      split
      · have hrem : removeFirst [e] e ++ [r] = [r] := by
          unfold removeFirst
          rw [if_pos rfl]
          rfl
        rw [hrem]
        refine ih [r] hl2 ?_ (by simp)
        intro x hx
        rw [List.mem_singleton] at hx
        rw [hx]
        exact hr
      · refine ih [e] hl2 ?_ (by simp)
        intro x hx
        rw [List.mem_singleton] at hx
        rw [hx]
        exact he
    · simp at hlen

/-- C9: an accepted entry (length at least 10) containing none of the four
quote pairs' characters always gets the literal title `Untitled`; the title
similarity of two such records is exactly 1 (above the 0.85 threshold), and
on a document all of whose records are untitled the Deduplicator keeps at
most one record. -/
theorem c9_untitled_collapse (t1 t2 : List Char) (n1 n2 : Nat)
    (hl1 : 10 ≤ t1.length) (hq1 : noQuoteChar t1 = true)
    (hl2 : 10 ≤ t2.length) (hq2 : noQuoteChar t2 = true)
    (refs : List ParsedReference)
    (hrefs : ∀ r ∈ refs, r.title = "Untitled".toList) :
    (parseSingleReference t1 n1).map (fun r => r.title) = some ("Untitled".toList) ∧
    (parseSingleReference t2 n2).map (fun r => r.title) = some ("Untitled".toList) ∧
    fracEq (simPair ("Untitled".toList) ("Untitled".toList)) (1, 1) ∧
    simGT85 (simPair ("Untitled".toList) ("Untitled".toList)) = true ∧
    (removeDuplicates refs).length ≤ 1 := by
  refine ⟨parse_title_untitled t1 n1 hl1 hq1, parse_title_untitled t2 n2 hl2 hq2,
    by decide, simGT85_untitled, ?_⟩
  exact (dedup_untitled_aux refs [] hrefs (by simp) (by simp)).1

/-- Witness for `c9_untitled_collapse` on two quote-free entries and a
three-record untitled list. -/
theorem c9_untitled_collapse_witness :
    (parseSingleReference ("alpha beta gamma".toList) 1).map (fun r => r.title) =
      some ("Untitled".toList) ∧
    (parseSingleReference ("delta epsilon".toList) 2).map (fun r => r.title) =
      some ("Untitled".toList) ∧
    fracEq (simPair ("Untitled".toList) ("Untitled".toList)) (1, 1) ∧
    simGT85 (simPair ("Untitled".toList) ("Untitled".toList)) = true ∧
    (removeDuplicates [mkRef ("Untitled".toList) 10, mkRef ("Untitled".toList) 20,
      mkRef ("Untitled".toList) 30]).length ≤ 1 :=
  c9_untitled_collapse ("alpha beta gamma".toList) ("delta epsilon".toList) 1 2
    (by decide) (by decide) (by decide) (by decide) _ (by decide)

theorem dedup_no_new_sim :
    ∀ (l acc : List ParsedReference),
      (∀ y ∈ l, ∀ x ∈ acc, simGT85 (simPair y.title x.title) = false) →
      l.Pairwise (fun x y => simGT85 (simPair y.title x.title) = false) →
      List.foldl dedupStep acc l = acc ++ l := by
  intro l
  induction l with
  | nil => intro acc _ _; simp
  | cons r l ih =>
    intro acc hcross hpw
    have hfind : List.find? (fun e => simGT85 (simPair r.title e.title)) acc = none := by
      rw [List.find?_eq_none]
      intro x hx
      simp [hcross r (List.mem_cons_self r l) x hx]
    have hstep : dedupStep acc r = acc ++ [r] := by
      unfold dedupStep
      rw [hfind]
    have h1 : ∀ y ∈ l, ∀ x ∈ acc ++ [r], simGT85 (simPair y.title x.title) = false := by
      intro y hy x hx
      rcases List.mem_append.mp hx with h | h
      · exact hcross y (List.mem_cons_of_mem r hy) x h
      · rw [List.mem_singleton] at h
        subst h
        exact (List.pairwise_cons.mp hpw).1 y hy
    rw [List.foldl_cons, hstep, ih (acc ++ [r]) h1 (List.pairwise_cons.mp hpw).2]
    simp

theorem dedup_equalconf_invariant :
    ∀ (l acc : List ParsedReference) (c : Nat),
      (∀ r ∈ l, r.confidence = c) →
      (∀ e ∈ acc, e.confidence = c) →
      acc.Pairwise (fun x y => simGT85 (simPair y.title x.title) = false) →
      (List.foldl dedupStep acc l).Pairwise
          (fun x y => simGT85 (simPair y.title x.title) = false) ∧
        ∀ e ∈ List.foldl dedupStep acc l, e.confidence = c := by
  intro l
  induction l with
  | nil => intro acc c _ hacc hpw; exact ⟨hpw, hacc⟩
  | cons r l ih =>
    intro acc c hl hacc hpw
    have hrc : r.confidence = c := hl r (List.mem_cons_self r l)
    have hl2 : ∀ x ∈ l, x.confidence = c :=
      fun x hx => hl x (List.mem_cons_of_mem r hx)
    rw [List.foldl_cons]
    cases hfind : List.find? (fun e => simGT85 (simPair r.title e.title)) acc with
    | none =>
      have hstep : dedupStep acc r = acc ++ [r] := by unfold dedupStep; rw [hfind]
      rw [hstep]
      refine ih (acc ++ [r]) c hl2 ?_ ?_
      · intro e he
        rcases List.mem_append.mp he with h | h
        · exact hacc e h
        · rw [List.mem_singleton] at h
          subst h
          exact hrc
      · rw [List.pairwise_append]
        refine ⟨hpw, by simp, ?_⟩
        intro x hx y hy
        rw [List.mem_singleton] at hy
        subst hy
        have := List.find?_eq_none.mp hfind x hx
        simpa using this
    | some e =>
      have hec : e.confidence = c := hacc e (List.mem_of_find?_eq_some hfind)
      have hstep : dedupStep acc r = acc := by
        unfold dedupStep
        rw [hfind]
        show (if e.confidence < r.confidence then removeFirst acc e ++ [r] else acc) = acc
        rw [if_neg (by omega)]
      rw [hstep]
      exact ih acc c hl2 hacc hpw

/-- C3 (amended): the Deduplicator is idempotent on record lists of equal
confidence (then no replacement ever fires, the accumulated survivors are
pairwise non-similar, and a second pass appends every record unchanged).
The unrestricted claim is refuted by `c3_counterexample`: a replacement can
leave two records with similarity above 0.85 in the output. -/
theorem c3_dedup_idempotent_equal_confidence (refs : List ParsedReference) (c : Nat)
    (h : ∀ r ∈ refs, r.confidence = c) :
    removeDuplicates (removeDuplicates refs) = removeDuplicates refs := by
  have hinv := dedup_equalconf_invariant refs [] c h (by simp) (by simp)
  unfold removeDuplicates
  have h2 := dedup_no_new_sim (List.foldl dedupStep [] refs) []
    (by intro y _ x hx; simp at hx) hinv.1
  simpa using h2

/-- Titles of the idempotence counterexample: B is similar to A (0.9236)
and to C (0.86), but C is not similar to A (0.8252). -/
def titleChainA : List Char := "aa bb cc dd ee ff gg hh x".toList

/-- See `titleChainA`. -/
def titleChainB : List Char := "aa bb cc dd ee ff gg hh".toList

/-- See `titleChainA`. -/
def titleChainC : List Char := "aa bb cc dd ee ff gg hh y z".toList

/-- C3: on the input `[A(conf 0), C(conf 25), B(conf 50)]` the first pass
keeps A, appends C (similarity 0.8252 ≤ 0.85), then B replaces A
(similarity 0.9236 > 0.85, higher confidence) without being compared to C,
leaving `[C, B]` whose similarity is 0.86 > 0.85; the second pass then
drops C, so `_remove_duplicates` is not idempotent. -/
theorem c3_counterexample :
    removeDuplicates
        [mkRef titleChainA 0, mkRef titleChainC 25, mkRef titleChainB 50] =
      [mkRef titleChainC 25, mkRef titleChainB 50] ∧
    removeDuplicates [mkRef titleChainC 25, mkRef titleChainB 50] =
      [mkRef titleChainB 50] ∧
    removeDuplicates (removeDuplicates
        [mkRef titleChainA 0, mkRef titleChainC 25, mkRef titleChainB 50]) ≠
      removeDuplicates
        [mkRef titleChainA 0, mkRef titleChainC 25, mkRef titleChainB 50] := by
  refine ⟨by decide, by decide, by decide⟩

/-- Witness for `c3_dedup_idempotent_equal_confidence` on three records of
confidence 40. -/
theorem c3_dedup_idempotent_equal_confidence_witness :
    removeDuplicates (removeDuplicates
        [mkRef titleChainA 40, mkRef titleChainC 40, mkRef titleChainB 40]) =
      removeDuplicates
        [mkRef titleChainA 40, mkRef titleChainC 40, mkRef titleChainB 40] :=
  c3_dedup_idempotent_equal_confidence
    [mkRef titleChainA 40, mkRef titleChainC 40, mkRef titleChainB 40] 40 (by decide)

theorem foldl_insertIfNew_nodup :
    ∀ (l acc : List (List Char)), acc.Nodup → (l.foldl insertIfNew acc).Nodup := by
  intro l
  induction l with
  | nil => intro acc h; exact h
  | cons x xs ih =>
    intro acc h
    rw [List.foldl_cons]
    apply ih
    unfold insertIfNew
    split
    · exact h
    · rename_i hx
      rw [List.nodup_append]
      refine ⟨h, by simp, ?_⟩
      intro a ha hax
      rw [List.mem_singleton] at hax
      subst hax
      exact hx ha

theorem wordSet_nodup (s : List Char) : (wordSet s).Nodup :=
  foldl_insertIfNew_nodup (pyWords s) [] List.nodup_nil

theorem filter_mem_length_eq_card (A B : List (List Char)) (hA : A.Nodup) :
    (A.filter (fun w => decide (w ∈ B))).length = (A.toFinset ∩ B.toFinset).card := by
  rw [← List.toFinset_card_of_nodup (hA.filter _)]
  congr 1
  ext w
  simp [List.mem_toFinset, List.mem_filter, Finset.mem_inter]

theorem inter_length_comm (A B : List (List Char)) (hA : A.Nodup) (hB : B.Nodup) :
    (A.filter (fun w => decide (w ∈ B))).length =
      (B.filter (fun w => decide (w ∈ A))).length := by
  rw [filter_mem_length_eq_card A B hA, filter_mem_length_eq_card B A hB,
    Finset.inter_comm]

theorem union_length_eq_card (A B : List (List Char)) (hA : A.Nodup) (hB : B.Nodup) :
    (A ++ B.filter (fun w => decide (w ∉ A))).length =
      (A.toFinset ∪ B.toFinset).card := by
  have hnodup : (A ++ B.filter (fun w => decide (w ∉ A))).Nodup := by
    rw [List.nodup_append]
    refine ⟨hA, hB.filter _, ?_⟩
    intro a ha haf
    exact (of_decide_eq_true (List.mem_filter.mp haf).2) ha
  rw [← List.toFinset_card_of_nodup hnodup]
  congr 1
  ext w
  simp only [List.mem_toFinset, List.mem_append, List.mem_filter, Finset.mem_union,
    decide_eq_true_eq]
  constructor
  · rintro (h | ⟨h, _⟩)
    · exact Or.inl h
    · exact Or.inr h
  · intro h
    by_cases hwA : w ∈ A
    · exact Or.inl hwA
    · rcases h with h | h
      · exact absurd h hwA
      · exact Or.inr ⟨h, hwA⟩

theorem union_length_comm (A B : List (List Char)) (hA : A.Nodup) (hB : B.Nodup) :
    (A ++ B.filter (fun w => decide (w ∉ A))).length =
      (B ++ A.filter (fun w => decide (w ∉ B))).length := by
  rw [union_length_eq_card A B hA hB, union_length_eq_card B A hB hA,
    Finset.union_comm]

theorem wordSimPair_symm (a b : List Char) :
    fracEq (wordSimPair a b) (wordSimPair b a) := by
  unfold fracEq wordSimPair
  by_cases h1 : wordSet a ≠ [] ∧ wordSet b ≠ []
  · have h2 : wordSet b ≠ [] ∧ wordSet a ≠ [] := ⟨h1.2, h1.1⟩
    rw [if_pos h1, if_pos h2]
    dsimp only
    rw [inter_length_comm (wordSet a) (wordSet b) (wordSet_nodup a) (wordSet_nodup b),
      union_length_comm (wordSet b) (wordSet a) (wordSet_nodup b) (wordSet_nodup a)]
  · have h2 : ¬(wordSet b ≠ [] ∧ wordSet a ≠ []) := fun hh => h1 ⟨hh.2, hh.1⟩
    rw [if_neg h1, if_neg h2]

theorem fracAvg_cross (cn cd wn wd cn2 cd2 wn2 wd2 : Nat)
    (h1 : cn * cd2 = cn2 * cd) (h2 : wn * wd2 = wn2 * wd) :
    (cn * wd + wn * cd) * (2 * cd2 * wd2) = (cn2 * wd2 + wn2 * cd2) * (2 * cd * wd) := by
  have e : (cn * wd + wn * cd) * (2 * cd2 * wd2) =
      2 * ((cn * cd2) * (wd * wd2) + (wn * wd2) * (cd * cd2)) := by ring
  rw [e, h1, h2]
  ring

/-- C6 (amended): the word-level Jaccard component of the similarity is
symmetric for every pair of strings, and the full similarity is symmetric
whenever the character-sequence-ratio component is; it need not be in
general, because `SequenceMatcher.ratio` is order-sensitive (see
`c6_counterexample`). -/
theorem c6_similarity_symmetry (s1 s2 : List Char) :
    fracEq (wordSimPair s1 s2) (wordSimPair s2 s1) ∧
    (fracEq (ratioPair (simNorm s1) (simNorm s2)) (ratioPair (simNorm s2) (simNorm s1)) →
      fracEq (simPair s1 s2) (simPair s2 s1)) := by
  refine ⟨wordSimPair_symm s1 s2, ?_⟩
  intro hcr
  unfold simPair
  by_cases h0 : s1 = [] ∨ s2 = []
  · rw [if_pos h0, if_pos h0.symm]
    exact rfl
  · have h0s : ¬(s2 = [] ∨ s1 = []) := fun h => h0 h.symm
    rw [if_neg h0, if_neg h0s]
    have hws := wordSimPair_symm (simNorm s1) (simNorm s2)
    unfold fracEq at hcr hws ⊢
    dsimp only
    exact fracAvg_cross _ _ _ _ _ _ _ _ hcr hws

/-- C6: `_calculate_similarity` is not symmetric: on the pair
`("tide", "diet")` the character ratio of difflib is 0.25 one way and 0.5
the other (its greedy matching-block decomposition depends on the argument
order), so the similarity values are 1/8 and 1/4. -/
theorem c6_counterexample :
    simPair ("tide".toList) ("diet".toList) = (4, 32) ∧
    simPair ("diet".toList) ("tide".toList) = (8, 32) ∧
    ¬ fracEq (simPair ("tide".toList) ("diet".toList))
        (simPair ("diet".toList) ("tide".toList)) := by
  refine ⟨by decide, by decide, by decide⟩

/-- Witness for `c6_similarity_symmetry` at the pair of equal strings. -/
theorem c6_similarity_symmetry_witness :
    fracEq (wordSimPair ("ab".toList) ("ab".toList))
        (wordSimPair ("ab".toList) ("ab".toList)) ∧
    fracEq (simPair ("ab".toList) ("ab".toList))
        (simPair ("ab".toList) ("ab".toList)) :=
  ⟨(c6_similarity_symmetry ("ab".toList) ("ab".toList)).1,
    (c6_similarity_symmetry ("ab".toList) ("ab".toList)).2 (by decide)⟩

theorem mem_dropWhile_of_not {p : Char → Bool} {c : Char} (hc : p c = false) :
    ∀ {l : List Char}, c ∈ l → c ∈ l.dropWhile p := by
  intro l
  induction l with
  | nil => simp
  | cons x xs ih =>
    intro h
    rw [List.dropWhile_cons]
    split
    · rename_i hx
      rcases List.mem_cons.mp h with rfl | h2
      · rw [hc] at hx
        exact absurd hx (by simp)
      · exact ih h2
    · exact h

theorem mem_pyStrip_of_not {c : Char} (hc : pyWsChar c = false) :
    ∀ {l : List Char}, c ∈ l → c ∈ pyStripWs l := by
  intro l h
  unfold pyStripWs stripLeftWs stripRightWs
  rw [List.mem_reverse]
  exact mem_dropWhile_of_not hc (List.mem_reverse.mpr (mem_dropWhile_of_not hc h))

theorem pyStrip_ne_nil_of_mem {c : Char} {l : List Char}
    (hc : pyWsChar c = false) (h : c ∈ l) : pyStripWs l ≠ [] :=
  List.ne_nil_of_mem (mem_pyStrip_of_not hc h)

theorem splitOnChar_ne_nil (c : Char) : ∀ (l : List Char), splitOnChar c l ≠ [] := by
  intro l
  induction l with
  | nil => simp [splitOnChar]
  | cons x xs ih =>
    unfold splitOnChar
    split
    · simp
    · cases hs : splitOnChar c xs with
      | nil => exact absurd hs ih
      | cons h t2 => simp

theorem exists_line_of_mem (ch : Char) (hch : ch ≠ '\n') :
    ∀ (l : List Char), ch ∈ l → ∃ ln ∈ splitOnChar '\n' l, ch ∈ ln := by
  intro l
  induction l with
  | nil => intro h; exact absurd h (List.not_mem_nil ch)
  | cons x xs ih =>
    intro h
    unfold splitOnChar
    split
    · rename_i hx
      rcases List.mem_cons.mp h with rfl | h2
      · exact absurd hx hch
      · obtain ⟨ln, hln, hcl⟩ := ih h2
        exact ⟨ln, List.mem_cons_of_mem _ hln, hcl⟩
    · cases hs : splitOnChar '\n' xs with
      | nil => exact absurd hs (splitOnChar_ne_nil '\n' xs)
      | cons hd t2 =>
        rcases List.mem_cons.mp h with rfl | h2
        · exact ⟨ch :: hd, List.mem_cons_self _ _, List.mem_cons_self _ _⟩
        · obtain ⟨ln, hln, hcl⟩ := ih h2
          rw [hs] at hln
          rcases List.mem_cons.mp hln with rfl | hln2
          · exact ⟨x :: ln, List.mem_cons_self _ _, List.mem_cons_of_mem _ hcl⟩
          · exact ⟨ln, List.mem_cons_of_mem _ hln2, hcl⟩

theorem fallbackLoop_ne_nil :
    ∀ (ls refs current : List (List Char)),
      (refs ≠ [] ∨ current ≠ [] ∨ ∃ ln ∈ ls, pyStripWs ln ≠ []) →
      fallbackLoop ls refs current ≠ [] := by
  intro ls
  induction ls with
  | nil =>
    intro refs current h
    unfold fallbackLoop
    split
    · simp
    · rename_i hcur
      rcases h with h | h | ⟨ln, hln, _⟩
      · exact h
      · exact absurd h hcur
      · exact absurd hln (List.not_mem_nil ln)
  | cons l ls ih =>
    intro refs current h
    unfold fallbackLoop
    dsimp only
    split
    · rename_i hline
      apply ih
      rcases h with h | h | ⟨ln, hln, hsn⟩
      · exact Or.inl h
      · exact Or.inr (Or.inl h)
      · rcases List.mem_cons.mp hln with rfl | hln2
        · exact absurd hline hsn
        · exact Or.inr (Or.inr ⟨ln, hln2, hsn⟩)
    · split
      · apply ih
        exact Or.inr (Or.inl (by simp))
      · apply ih
        exact Or.inr (Or.inl (by simp))

/-- The bracket-only text on which the bracket-numbered strategy matches but
captures nothing. -/
def cTenText : List Char := "[1] [2]".toList

/-- C10: on the non-empty input `[1] [2]` the bracket-numbered strategy
matches (two raw captures), but both captures are empty after trimming, so
`_split_references` returns the empty list; the fallback line-grouping
strategy on the same input yields one entry, and it yields at least one
entry for every input containing a non-whitespace character. -/
theorem c10_bracket_empty_captures :
    numberedCaptures cTenText = [[], []] ∧
    splitReferences cTenText = [] ∧
    fallbackSplit cTenText = [cTenText] ∧
    (∀ t : List Char, (∃ ch ∈ t, pyWsChar ch = false) → fallbackSplit t ≠ []) := by
  refine ⟨by decide, by decide, by decide, ?_⟩
  rintro t ⟨ch, hmem, hws⟩
  have hch : ch ≠ '\n' := by
    intro h
    rw [h] at hws
    exact absurd hws (by decide)
  obtain ⟨ln, hln, hcl⟩ := exists_line_of_mem ch hch t hmem
  unfold fallbackSplit
  exact fallbackLoop_ne_nil _ [] []
    (Or.inr (Or.inr ⟨ln, hln, pyStrip_ne_nil_of_mem hws hcl⟩))

/-- Witness for the universal part of `c10_bracket_empty_captures`. -/
theorem c10_bracket_empty_captures_witness :
    fallbackSplit ("[1] [2]".toList) ≠ [] :=
  c10_bracket_empty_captures.2.2.2 ("[1] [2]".toList) ⟨'[', by decide, by decide⟩
